import Mathlib

/-!
Verification of the branch-resolution, worktree-creation and env-file
migration logic of the `worktree` command-line tool (source file
`src/worktree.ts`).

The script is a linear orchestration of external commands.  We embed it
shallowly: the pure string processing is translated function by function,
and the effectful main flow `createWorktree` is modelled as a function from
an explicit world state (git refs, directories, files, current directory)
to an outcome, a trace of issued external effects, and an updated state.
External command outputs that the script merely consumes (the stdout of
`git branch -r`, the interactive answers) are inputs of the model.
External commands are modelled as succeeding; the sources react to their
failures only by warning or exiting, which none of the claims concern.
The trailing steps the specification puts out of scope (package-manager
install, editor launch, post-create hooks) issue no modelled effects.

JavaScript string primitives used by the source do not correspond exactly
to Lean core string functions (for example `String.prototype.replace` with
a string pattern replaces only the first occurrence), so the model defines
its own character-list versions with JavaScript semantics.
-/

/-- Whitespace test used by the model of `String.prototype.trim`.  The
JavaScript definition covers all Unicode whitespace; the model covers the
ASCII fragment, which is the one exercised by the tool. -/
def isJsSpace (c : Char) : Bool :=
  c = ' ' || c = '\t' || c = '\n' || c = '\r'

/-- Model of JavaScript `String.prototype.trim` on character lists. -/
def trimList (s : List Char) : List Char :=
  ((s.dropWhile isJsSpace).reverse.dropWhile isJsSpace).reverse

/-- Model of JavaScript `String.prototype.trim`. -/
def jsTrim (s : String) : String :=
  ⟨trimList s.data⟩

/-- Split a character list at every occurrence of the separator character.
Models JavaScript `String.prototype.split` with a one-character separator:
the result always has one more element than the number of separators. -/
def splitOnChar (sep : Char) : List Char → List (List Char)
  | [] => [[]]
  | c :: cs =>
    match splitOnChar sep cs with
    | [] => [[c]]
    | l :: ls => if c = sep then [] :: l :: ls else (c :: l) :: ls

/-- Model of JavaScript `s.split(sep)` for a one-character separator. -/
def jsSplit (s : String) (sep : Char) : List String :=
  (splitOnChar sep s.data).map fun l => ⟨l⟩

/-- Model of `file.split('/').pop() || ''`: the basename of a path. -/
def jsBasename (p : String) : String :=
  ⟨(splitOnChar '/' p.data).getLastD []⟩

/-- Substring test on character lists, scanning left to right. -/
def containsSubList (needle : List Char) : List Char → Bool
  | [] => needle.isEmpty
  | c :: cs => needle.isPrefixOf (c :: cs) || containsSubList needle cs

/-- Model of JavaScript `s.includes(sub)`. -/
def jsIncludes (s sub : String) : Bool :=
  containsSubList sub.data s.data

/-- Replace the first occurrence of `needle` by `repl`, scanning left to
right; if `needle` does not occur the list is unchanged.  Models
JavaScript `String.prototype.replace` with a string pattern. -/
def replaceFirstList (needle repl : List Char) : List Char → List Char
  | [] => if needle.isEmpty then repl else []
  | c :: cs =>
    if needle.isPrefixOf (c :: cs) then repl ++ (c :: cs).drop needle.length
    else c :: replaceFirstList needle repl cs

/-- Model of JavaScript `s.replace(pat, repl)` for a string pattern:
only the first occurrence is replaced. -/
def jsReplaceFirst (s pat repl : String) : String :=
  ⟨replaceFirstList pat.data repl.data s.data⟩

/-- Model of `selectedBranch.replace(/\//g, '-')`: every slash becomes a
hyphen (global one-character replacement). -/
def toSafeBranchName (s : String) : String :=
  ⟨s.data.map fun c => if c = '/' then '-' else c⟩

/-- Boolean membership in a list of strings, mirroring the membership
tests (`Array.prototype.includes`, ref lookups) of the source. -/
def strListHas : List String → String → Bool
  | [], _ => false
  | x :: xs, a => x == a || strListHas xs a

/-- De-duplication keeping first occurrences, the order-preserving
behaviour of `[...new Set(allFiles)]`. -/
def dedupAux (seen : List String) : List String → List String
  | [] => []
  | x :: xs => if strListHas seen x then dedupAux seen xs else x :: dedupAux (x :: seen) xs

/-- Model of `[...new Set(l)]`. -/
def jsDedup (l : List String) : List String :=
  dedupAux [] l

/-- Lexicographic comparison of character lists, the model of the default
JavaScript string comparison used by `Array.prototype.sort()`. -/
def lexLe : List Char → List Char → Bool
  | [], _ => true
  | _ :: _, [] => false
  | a :: as, b :: bs => a < b || (a = b && lexLe as bs)

/-- Boolean lexicographic order on strings. -/
def strLe (a b : String) : Bool :=
  lexLe a.data b.data

/-- Insert a string into a sorted list, keeping it sorted. -/
def insertSorted (s : String) : List String → List String
  | [] => [s]
  | t :: ts => if strLe s t then s :: t :: ts else t :: insertSorted s ts

/-- Insertion sort on strings, the model of `Array.prototype.sort()`
(default lexicographic comparison). -/
def sortStrings : List String → List String
  | [] => []
  | s :: ss => insertSorted s (sortStrings ss)

/-- A star consumes any run of characters: try the continuation on every
suffix of the input. -/
def matchStar (k : List Char → Bool) : List Char → Bool
  | [] => k []
  | c :: cs => k (c :: cs) || matchStar k cs

/-- Full glob match of a pattern against a name, the matching performed by
`find DIR -name PATTERN`: a star matches any run of characters, a question
mark matches one character, every other character matches itself.  The
model covers patterns without character classes, the fragment the env-file
patterns of this tool use. -/
def globMatch : List Char → List Char → Bool
  | [], s => s.isEmpty
  | p :: ps, s =>
    if p = '*' then matchStar (globMatch ps) s
    else
      match s with
      | [] => false
      | x :: xs => if p = '?' then globMatch ps xs else p = x && globMatch ps xs

/-- `find dir -name pattern -type f` matches the pattern against the
basename of each file. -/
def findNameMatches (pattern name : String) : Bool :=
  globMatch pattern.data name.data

/-- Token of the regular expression the source builds from an exclusion
pattern by globally replacing each star with dot-star. -/
inductive RegexTok where
  | star : RegexTok
  | anyChar : RegexTok
  | lit : Char → RegexTok
deriving DecidableEq

/-- Compile an exclusion pattern to regex tokens, modelling the
pattern-to-regex rewrite of the source (every star replaced by dot-star):
a star becomes the any-run token, a dot keeps its regex meaning of any
single character, every other character is a literal.  The model covers
patterns without further regex metacharacters, the fragment exercised by
env-file exclusion patterns. -/
def compileExcludeRegex (pattern : String) : List RegexTok :=
  pattern.data.map fun c =>
    if c = '*' then RegexTok.star
    else if c = '.' then RegexTok.anyChar
    else RegexTok.lit c

/-- Match a token sequence against a prefix of the input; a trailing
remainder is allowed, as in `RegExp.prototype.test`. -/
def matchToks : List RegexTok → List Char → Bool
  | [], _ => true
  | RegexTok.star :: ts, s => matchStar (matchToks ts) s
  | RegexTok.anyChar :: _, [] => false
  | RegexTok.anyChar :: ts, _ :: xs => matchToks ts xs
  | RegexTok.lit _ :: _, [] => false
  | RegexTok.lit c :: ts, x :: xs => c = x && matchToks ts xs

/-- Model of the regex test the source performs on each basename with the
compiled exclusion pattern: an unanchored search, realised by prepending a
star token. -/
def excludeRegexTest (pattern filename : String) : Bool :=
  matchToks (RegexTok.star :: compileExcludeRegex pattern) filename.data

/-- Glob match in which only a star is special, matching any run of
characters, and every other character, a dot included, matches only
itself, the whole name being consumed. -/
def starOnlyGlobMatch : List Char → List Char → Bool
  | [], s => s.isEmpty
  | p :: ps, s =>
    if p = '*' then matchStar (starOnlyGlobMatch ps) s
    else
      match s with
      | [] => false
      | x :: xs => p = x && starOnlyGlobMatch ps xs

/-- Modelled from the spec: exclusion-glob match of a pattern against a
basename, in which a star matches any run of characters within a filename
and every other character matches only itself.  This is the semantics the
specification ascribes to exclusion patterns; it exists to be compared
with the matching the source actually performs, `excludeRegexTest`. -/
def specExcludeGlobMatch (pattern filename : String) : Bool :=
  starOnlyGlobMatch pattern.data filename.data

example : jsTrim "  origin/main " = "origin/main" := rfl
example : jsSplit "a\nb\n" '\n' = ["a", "b", ""] := rfl
example : jsBasename "/s/a/.env" = ".env" := rfl
example : jsIncludes "  origin/HEAD -> origin/main" "HEAD" = true := rfl
example : jsReplaceFirst "origin/feature/origin/x" "origin/" "" = "feature/origin/x" := rfl
example : toSafeBranchName "feature/login" = "feature-login" := rfl
example : jsDedup ["a", "b", "a"] = ["a", "b"] := rfl
example : sortStrings ["b", "a", "c"] = ["a", "b", "c"] := rfl
example : findNameMatches ".env*" ".env.local" = true := rfl
example : findNameMatches ".env*" "config.json" = false := rfl
example : excludeRegexTest ".env.example" ".env.example" = true := rfl
example : excludeRegexTest ".env.example" ".env" = false := rfl
example : specExcludeGlobMatch ".env.example" ".env.example" = true := rfl

/-- Pure processing part of `getRemoteBranches`: how the stdout of
`git branch -r` is turned into the branch inventory.  A line survives when
it is nonempty after trimming and does not contain the substring `HEAD`;
each surviving line is trimmed, the first occurrence of `remote/` is
removed, and the results are sorted. -/
def getRemoteBranches (remote stdout : String) : List String :=
  sortStrings
    (((jsSplit stdout '\n').filter fun line =>
        jsTrim line ≠ "" && !jsIncludes line "HEAD").map fun line =>
      jsReplaceFirst (jsTrim line) (remote ++ "/") "")

example : getRemoteBranches "origin"
    "  origin/HEAD -> origin/main\n  origin/main\n  origin/feature/x\n" =
    ["feature/x", "main"] := rfl

/-- Validation of a new branch name typed at the interactive prompt: it
must be nonempty after trimming and must not already be in the
inventory. -/
def validateNewBranchName (branches : List String) (value : String) : Bool :=
  !(jsTrim value = "") && !strListHas branches value

/-- The interactive input prompt re-asks until the validation passes;
`inputs` is the sequence of answers the user types, and the result is the
first valid one.  An exhausted sequence models the user abandoning the
prompt. -/
def promptNewBranchName (branches : List String) : List String → Option String
  | [] => none
  | v :: rest =>
    if validateNewBranchName branches v then some v
    else promptNewBranchName branches rest

/-- One interaction with the branch selector: cancelling, or choosing the
entry at an index of the presented choice list (index 0 is the
create-new entry) together with the answers subsequently typed at the
new-branch-name prompt. -/
inductive UIScript where
  | cancel : UIScript
  | choose : Nat → List String → UIScript

/-- Model of `selectBranchInteractive`: the choice list is the create-new
entry followed by the inventory; choosing the create-new entry runs the
validated name prompt, choosing a branch returns it, cancelling returns
nothing. -/
def selectBranchInteractive (branches : List String) (ui : UIScript) : Option String :=
  match ui with
  | UIScript.cancel => none
  | UIScript.choose idx inputs =>
    let createNew := "+ Create new branch"
    let choices := createNew :: branches
    match choices.get? idx with
    | none => none
    | some selected =>
      if selected = createNew then promptNewBranchName branches inputs
      else some selected

/-- Model of `find dir -name pattern -type f` over a file system given as
a list of absolute file paths with contents: the files whose path lies
under `dir` and whose basename matches the pattern, in file-system
order. -/
def findCmd (dir pattern : String) (files : List (String × String)) : List String :=
  (files.filter fun f =>
    (dir ++ "/").data.isPrefixOf f.1.data && findNameMatches pattern (jsBasename f.1)).map
    fun f => f.1

/-- Model of `findEnvFiles`: union the per-pattern `find` results,
de-duplicate preserving first occurrences, and if the exclusion list is
nonempty drop every file some exclusion pattern regex-matches against the
basename. -/
def findEnvFiles (dir : String) (patterns exclude : List String)
    (files : List (String × String)) : List String :=
  let allFiles := jsDedup (patterns.flatMap fun pattern => findCmd dir pattern files)
  if exclude.length > 0 then
    allFiles.filter fun file =>
      !exclude.any fun pattern => excludeRegexTest pattern (jsBasename file)
  else allFiles

/-- Look up the contents of a file by absolute path. -/
def readFileContents (files : List (String × String)) (p : String) : String :=
  ((files.find? fun f => f.1 == p).map fun f => f.2).getD ""

/-- The copy loop of `createWorktree` (models lines 365 to 386 of the
source): for each discovered env file, the path relative to the original
directory is obtained by removing the first occurrence of
`originalDir ++ "/"`, the target is that relative path under the current
directory, and the file contents are copied unchanged.  Returns the copy
effects paired with the created target files. -/
def migrateEnvFiles (originalDir cwd : String) (patterns exclude : List String)
    (files : List (String × String)) :
    List (String × String) × List (String × String) :=
  let envFiles := findEnvFiles originalDir patterns exclude files
  (envFiles.map fun envFile =>
     (envFile, cwd ++ "/" ++ jsReplaceFirst envFile (originalDir ++ "/") ""),
   envFiles.map fun envFile =>
     (cwd ++ "/" ++ jsReplaceFirst envFile (originalDir ++ "/") "",
      readFileContents files envFile))

/-- The two ref namespaces `branchExists` can be asked about, the
string-literal union parameter of the source taking `local` or `remote`
(`local` is reserved in Lean, hence the abbreviated constructor names). -/
inductive RefType where
  | loc : RefType
  | rem : RefType
deriving DecidableEq

/-- Model of `branchExists`: `git show-ref --verify refs/heads/NAME`
respectively `refs/remotes/REMOTE/NAME` succeeds exactly when that full
ref name is present.  A pure existence query: the state is not
modified. -/
def branchExists (refs : List String) (branchName : String) (type : RefType)
    (remote : String) : Bool :=
  match type with
  | RefType.loc => strListHas refs ("refs/heads/" ++ branchName)
  | RefType.rem => strListHas refs ("refs/remotes/" ++ remote ++ "/" ++ branchName)

/-- The three branch classifications of the specification. -/
inductive BranchClassification where
  | localExisting : BranchClassification
  | remoteExisting : BranchClassification
  | new : BranchClassification
deriving DecidableEq

/-- The classification decision inlined at lines 313 to 324 of the
source: local first, then remote, then new, short-circuiting. -/
def classify (refs : List String) (branchName remote : String) : BranchClassification :=
  if branchExists refs branchName RefType.loc remote then BranchClassification.localExisting
  else if branchExists refs branchName RefType.rem remote then BranchClassification.remoteExisting
  else BranchClassification.new

/-- The `git` section of the configuration file. -/
structure GitConfig where
  fetch : Option Bool := none
  remote : Option String := none
  defaultBranch : Option String := none
  pushNewBranches : Option Bool := none
deriving DecidableEq

/-- The `env` section of the configuration file. -/
structure EnvConfig where
  copy : Option Bool := none
  patterns : Option (List String) := none
  exclude : Option (List String) := none
deriving DecidableEq

/-- The `worktree` section of the configuration file; the source field
`prefix` is a reserved word in Lean and is called `prefixName` here. -/
structure WorktreeSection where
  prefixName : Option String := none
  location : Option String := none
deriving DecidableEq

/-- The configuration consumed by the core (the remaining sections of the
source configuration carry no decision logic relevant to the modelled
steps and are out of scope per the specification). -/
structure WorktreeConfig where
  worktree : Option WorktreeSection := none
  git : Option GitConfig := none
  env : Option EnvConfig := none
deriving DecidableEq

/-- JavaScript `a || d` for an optional string: the default applies when
the field is absent or the empty string (empty strings are falsy). -/
def jsOrStr (o : Option String) (d : String) : String :=
  match o with
  | none => d
  | some s => if s = "" then d else s

/-- JavaScript truthiness of an optional string. -/
def jsTruthyStr (o : Option String) : Bool :=
  match o with
  | none => false
  | some s => s ≠ ""

/-- One external effect issued by the tool.  Read-only queries
(`git rev-parse`, `git show-ref`, `git branch -r`) are not effects; the
recorded constructors are the commands that mutate git state or the file
system, plus `fetch`, which updates remote-tracking refs. -/
inductive Effect where
  | fetch : String → Effect
  | worktreeAdd : String → String → Effect
  | worktreeAddNewBranch : String → String → String → Effect
  | setUpstream : String → String → Effect
  | configSet : String → String → Effect
  | push : String → String → Effect
  | mkdirp : String → Effect
  | copy : String → String → Effect
deriving DecidableEq

/-- Outcome of a run: a `process.exit(code)` or reaching the end of
`createWorktree`. -/
inductive Outcome where
  | exit : Nat → Outcome
  | completed : Outcome
deriving DecidableEq

/-- The world the tool observes and mutates: git refs (full ref names),
directories present on disk, files (absolute path and contents), and the
current working directory.  Refs are taken as already reflecting any
fetched state: a `fetch` is recorded in the trace but modelled as not
changing the ref table. -/
structure WorldState where
  refs : List String
  dirs : List String
  files : List (String × String)
  currentDir : String
deriving DecidableEq

/-- The worktree path construction of lines 275 to 288: the safe name has
every slash replaced by a hyphen; a configured location is a template with
placeholders replaced first occurrence each (JavaScript string-pattern
`replace`), otherwise the path is `../PREFIX-SAFENAME`. -/
def worktreePathOf (cfg : WorktreeConfig) (selectedBranch : String) : String :=
  let safeBranchName := toSafeBranchName selectedBranch
  let pfx := jsOrStr (cfg.worktree.bind WorktreeSection.prefixName) "assurix"
  let loc := cfg.worktree.bind WorktreeSection.location
  if jsTruthyStr loc then
    jsReplaceFirst
      (jsReplaceFirst (jsReplaceFirst (loc.getD "") "\x7bprefix\x7d" pfx)
        "\x7bbranch\x7d" safeBranchName)
      "\x7boriginal-branch\x7d" selectedBranch
  else
    ".." ++ "/" ++ (pfx ++ "-" ++ safeBranchName)

/-- The part of `createWorktree` from the worktree-path computation to the
end (lines 275 to 441), entered once a branch has been selected;
`preEffects` are the effects already issued (the inventory fetch of the
interactive path).  Out-of-scope trailing steps (package-manager install,
editor launch, hooks) issue no modelled effects. -/
def afterSelection (cfg : WorktreeConfig) (selectedBranch : String)
    (preEffects : List Effect) (st : WorldState) :
    Outcome × List Effect × WorldState :=
  let remote := jsOrStr (cfg.git.bind GitConfig.remote) "origin"
  let defaultBranch := jsOrStr (cfg.git.bind GitConfig.defaultBranch) "main"
  let worktreePath := worktreePathOf cfg selectedBranch
  if strListHas st.dirs worktreePath then
    (Outcome.exit 1, preEffects, st)
  else
    let originalDir := st.currentDir
    let fetchEffects :=
      if (cfg.git.bind GitConfig.fetch) ≠ some false then [Effect.fetch remote] else []
    let creation :=
      match classify st.refs selectedBranch remote with
      | BranchClassification.localExisting =>
        ([Effect.worktreeAdd worktreePath selectedBranch],
         { st with dirs := st.dirs ++ [worktreePath] })
      | BranchClassification.remoteExisting =>
        ([Effect.worktreeAddNewBranch worktreePath selectedBranch
            (remote ++ "/" ++ selectedBranch)],
         { st with dirs := st.dirs ++ [worktreePath],
                   refs := st.refs ++ ["refs/heads/" ++ selectedBranch] })
      | BranchClassification.new =>
        ([Effect.worktreeAddNewBranch worktreePath selectedBranch
            (remote ++ "/" ++ defaultBranch)],
         { st with dirs := st.dirs ++ [worktreePath],
                   refs := st.refs ++ ["refs/heads/" ++ selectedBranch] })
    let st1 := { creation.2 with currentDir := worktreePath }
    let tracking :=
      if branchExists st1.refs selectedBranch RefType.rem remote then
        ([Effect.setUpstream (remote ++ "/" ++ selectedBranch) selectedBranch], st1)
      else
        let cfgEffects :=
          [Effect.configSet ("branch." ++ selectedBranch ++ ".remote") remote,
           Effect.configSet ("branch." ++ selectedBranch ++ ".merge")
             ("refs/heads/" ++ selectedBranch),
           Effect.configSet "push.default" "simple"]
        if (cfg.git.bind GitConfig.pushNewBranches).getD false then
          (cfgEffects ++ [Effect.push remote selectedBranch],
           { st1 with refs := st1.refs ++ ["refs/remotes/" ++ remote ++ "/" ++ selectedBranch] })
        else (cfgEffects, st1)
    let st2 := tracking.2
    let envStep :=
      if (cfg.env.bind EnvConfig.copy) ≠ some false then
        let patterns := (cfg.env.bind EnvConfig.patterns).getD [".env*"]
        let exclude := (cfg.env.bind EnvConfig.exclude).getD []
        let migrated := migrateEnvFiles originalDir st2.currentDir patterns exclude st2.files
        (migrated.1.flatMap fun c => [Effect.mkdirp c.2, Effect.copy c.1 c.2],
         migrated.2)
      else ([], [])
    let st3 := { st2 with files := st2.files ++ envStep.2 }
    (Outcome.completed,
     preEffects ++ fetchEffects ++ creation.1 ++ tracking.1 ++ envStep.1,
     st3)

/-- Model of the whole `createWorktree` run.  Inputs the model does not
compute itself are parameters: whether `git rev-parse` succeeds, the
stdout of `git branch -r`, and the interactive answers. -/
def createWorktree (cfg : WorktreeConfig) (branchName : Option String)
    (isGitRepo : Bool) (branchROut : String) (ui : UIScript) (st : WorldState) :
    Outcome × List Effect × WorldState :=
  if !isGitRepo then (Outcome.exit 1, [], st)
  else
    match branchName with
    | some b => afterSelection cfg b [] st
    | none =>
      let remote := jsOrStr (cfg.git.bind GitConfig.remote) "origin"
      let branches := getRemoteBranches remote branchROut
      if branches.isEmpty then (Outcome.exit 1, [Effect.fetch remote], st)
      else
        match selectBranchInteractive branches ui with
        | none => (Outcome.exit 0, [Effect.fetch remote], st)
        | some b => afterSelection cfg b [Effect.fetch remote] st

/-! Helper lemmas about the model. -/

theorem strListHas_nil (a : String) : strListHas [] a = false := rfl

theorem strListHas_cons (x : String) (xs : List String) (a : String) :
    strListHas (x :: xs) a = (x == a || strListHas xs a) := rfl

theorem strListHas_append (l l' : List String) (a : String) :
    strListHas (l ++ l') a = (strListHas l a || strListHas l' a) := by
  induction l with
  | nil => simp [strListHas]
  | cons x xs ih => simp [strListHas, ih, Bool.or_assoc]

theorem strListHas_iff_mem (l : List String) (a : String) :
    strListHas l a = true ↔ a ∈ l := by
  induction l with
  | nil => simp [strListHas]
  | cons x xs ih =>
    simp only [strListHas, Bool.or_eq_true, beq_iff_eq, ih, List.mem_cons]
    exact or_congr ⟨Eq.symm, Eq.symm⟩ Iff.rfl

theorem str_beq_false_of_length_ne {s t : String} (h : s.length ≠ t.length) :
    (s == t) = false := by
  simp only [beq_eq_false_iff_ne, ne_eq]
  intro he
  exact h (by rw [he])

theorem heads_beq_remotes_false (b r : String) :
    (("refs/heads/" ++ b) == ("refs/remotes/" ++ r ++ "/" ++ b)) = false := by
  apply str_beq_false_of_length_ne
  have h1 : ("refs/heads/" : String).length = 11 := rfl
  have h2 : ("refs/remotes/" : String).length = 13 := rfl
  have h3 : ("/" : String).length = 1 := rfl
  simp only [String.length_append, h1, h2, h3]
  omega

theorem remotes_beq_heads_false (b r : String) :
    (("refs/remotes/" ++ r ++ "/" ++ b) == ("refs/heads/" ++ b)) = false := by
  apply str_beq_false_of_length_ne
  have h1 : ("refs/heads/" : String).length = 11 := rfl
  have h2 : ("refs/remotes/" : String).length = 13 := rfl
  have h3 : ("/" : String).length = 1 := rfl
  simp only [String.length_append, h1, h2, h3]
  omega

/-! Claim theorems. -/

/-- Claim C1: for every branch name, classification is determined by a
short-circuiting, local-first order: if the local ref exists the
classification is `localExisting`; otherwise if the remote-tracking ref
exists it is `remoteExisting`; otherwise it is `new`.  Classification is
a total function into a three-element type, so exactly one classification
applies per resolution, and `branchExists` is a pure function of the ref
table, so the existence checks perform no mutation. -/
theorem c1_classification_local_first (refs : List String) (branchName remote : String) :
    (branchExists refs branchName RefType.loc remote = true →
      classify refs branchName remote = BranchClassification.localExisting) ∧
    (branchExists refs branchName RefType.loc remote = false →
      branchExists refs branchName RefType.rem remote = true →
      classify refs branchName remote = BranchClassification.remoteExisting) ∧
    (branchExists refs branchName RefType.loc remote = false →
      branchExists refs branchName RefType.rem remote = false →
      classify refs branchName remote = BranchClassification.new) := by
  refine ⟨fun h1 => ?_, fun h1 h2 => ?_, fun h1 h2 => ?_⟩ <;>
    simp [classify, h1]
  · simp [h2]
  · simp [h2]

/-- Witness for C1: each of the three orderings realised at a concrete
ref table. -/
theorem c1_classification_local_first_witness :
    classify ["refs/heads/dev", "refs/remotes/origin/dev"] "dev" "origin" =
      BranchClassification.localExisting ∧
    classify ["refs/remotes/origin/dev"] "dev" "origin" =
      BranchClassification.remoteExisting ∧
    classify [] "dev" "origin" = BranchClassification.new :=
  ⟨(c1_classification_local_first ["refs/heads/dev", "refs/remotes/origin/dev"]
      "dev" "origin").1 (by decide),
   (c1_classification_local_first ["refs/remotes/origin/dev"] "dev" "origin").2.1
     (by decide) (by decide),
   (c1_classification_local_first [] "dev" "origin").2.2 (by decide) (by decide)⟩

theorem push_not_mem_env (a b : String) (l : List (String × String)) :
    Effect.push a b ∉ l.flatMap fun c => [Effect.mkdirp c.2, Effect.copy c.1 c.2] := by
  simp [List.mem_flatMap]

/-- Claim C2: for every branch name absent both as a local ref and as a
remote-tracking ref, `createWorktree` creates the new local branch named
`branchName` initialised from `remote/defaultBranch` (the recorded
worktree-add effect names that start point, not the currently checked-out
branch), and a push effect occurs in the run exactly when the
`pushNewBranches` policy flag is enabled. -/
theorem c2_new_branch_from_default (cfg : WorktreeConfig) (st : WorldState) (n : String)
    (hL : branchExists st.refs n RefType.loc (jsOrStr (cfg.git.bind GitConfig.remote) "origin") = false)
    (hR : branchExists st.refs n RefType.rem (jsOrStr (cfg.git.bind GitConfig.remote) "origin") = false)
    (hP : strListHas st.dirs (worktreePathOf cfg n) = false) :
    Effect.worktreeAddNewBranch (worktreePathOf cfg n) n
        (jsOrStr (cfg.git.bind GitConfig.remote) "origin" ++ "/" ++
          jsOrStr (cfg.git.bind GitConfig.defaultBranch) "main") ∈
      (createWorktree cfg (some n) true "" UIScript.cancel st).2.1 ∧
    ("refs/heads/" ++ n) ∈ (createWorktree cfg (some n) true "" UIScript.cancel st).2.2.refs ∧
    ((∃ r b, Effect.push r b ∈ (createWorktree cfg (some n) true "" UIScript.cancel st).2.1) ↔
      (cfg.git.bind GitConfig.pushNewBranches).getD false = true) := by
  have hR' := hR
  simp only [branchExists] at hR'
  have hR2 : branchExists (st.refs ++ ["refs/heads/" ++ n]) n RefType.rem
      (jsOrStr (cfg.git.bind GitConfig.remote) "origin") = false := by
    simp only [branchExists, strListHas_append, hR', strListHas, heads_beq_remotes_false,
      Bool.or_self, Bool.or_false, Bool.false_or]
  cases hpb : (cfg.git.bind GitConfig.pushNewBranches).getD false with
  | true =>
    simp only [createWorktree, afterSelection, classify, hL, hR, hP, hR2, hpb, Bool.not_true,
      Bool.false_eq_true, if_false, reduceIte]
    refine ⟨by simp [List.mem_append], by simp [List.mem_append], ?_⟩
    simp only [iff_true]
    exact ⟨jsOrStr (cfg.git.bind GitConfig.remote) "origin", n, by simp [List.mem_append]⟩
  | false =>
    simp only [createWorktree, afterSelection, classify, hL, hR, hP, hR2, hpb, Bool.not_true,
      Bool.false_eq_true, if_false, reduceIte]
    refine ⟨by simp [List.mem_append], by simp [List.mem_append], ?_⟩
    simp only [iff_false]
    rintro ⟨r, b, hmem⟩
    simp only [List.mem_append, List.mem_singleton, List.mem_cons, List.mem_flatMap] at hmem
    rcases hmem with ((h1 | h2) | h3) | h4
    · split at h1 <;> simp_all
    · simp_all
    · simp_all
    · split at h4 <;> simp_all [List.mem_flatMap]

/-- Witness for C2: a fresh branch name in an empty repository state. -/
theorem c2_new_branch_from_default_witness :
    Effect.worktreeAddNewBranch "../assurix-topic" "topic" "origin/main" ∈
      (createWorktree {} (some "topic") true "" UIScript.cancel
        { refs := [], dirs := [], files := [], currentDir := "/repo" }).2.1 ∧
    ("refs/heads/topic" : String) ∈
      (createWorktree {} (some "topic") true "" UIScript.cancel
        { refs := [], dirs := [], files := [], currentDir := "/repo" }).2.2.refs ∧
    ((∃ r b, Effect.push r b ∈
        (createWorktree {} (some "topic") true "" UIScript.cancel
          { refs := [], dirs := [], files := [], currentDir := "/repo" }).2.1) ↔
      (({} : WorktreeConfig).git.bind GitConfig.pushNewBranches).getD false = true) :=
  c2_new_branch_from_default {} { refs := [], dirs := [], files := [], currentDir := "/repo" }
    "topic" (by decide) (by decide) (by decide)

/-- Counterexample to C3 as stated: an interactive run (no branch
argument) whose selected branch has an already-existing target path still
exits with code 1, but the branch-inventory fetch has already happened, so
it is not the case that no fetch occurs in that run. -/
theorem c3_counterexample :
    createWorktree {} none true "  origin/main\n" (UIScript.choose 1 [])
        { refs := [], dirs := ["../assurix-main"], files := [], currentDir := "/repo" } =
      (Outcome.exit 1, [Effect.fetch "origin"],
        { refs := [], dirs := ["../assurix-main"], files := [], currentDir := "/repo" }) := by
  decide

/-- Claim C3, amended: when `createWorktree` is invoked with an explicit
branch name and the target worktree path already exists on disk, it fails
with exit code 1 before performing any effect at all: the trace is empty
(no fetch, no worktree creation, no ref, no configuration change) and the
world state is unchanged.  In interactive mode the branch-inventory fetch
precedes the path check. -/
theorem c3_path_exists_fails_before_mutation (cfg : WorktreeConfig) (st : WorldState)
    (n : String) (branchROut : String) (ui : UIScript)
    (hP : strListHas st.dirs (worktreePathOf cfg n) = true) :
    createWorktree cfg (some n) true branchROut ui st = (Outcome.exit 1, [], st) := by
  simp only [createWorktree, afterSelection, hP, Bool.not_true, Bool.false_eq_true,
    if_false, reduceIte, if_true, List.nil_append]

/-- Witness for the amended C3. -/
theorem c3_path_exists_fails_before_mutation_witness :
    createWorktree {} (some "main") true "" UIScript.cancel
        { refs := [], dirs := ["../assurix-main"], files := [], currentDir := "/repo" } =
      (Outcome.exit 1, [],
        { refs := [], dirs := ["../assurix-main"], files := [], currentDir := "/repo" }) :=
  c3_path_exists_fails_before_mutation {}
    { refs := [], dirs := ["../assurix-main"], files := [], currentDir := "/repo" }
    "main" "" UIScript.cancel (by decide)

theorem isInfix_middle {A : Type} (a b : A) (x y : List A) :
    List.IsInfix [a, b] (x ++ [a] ++ [b] ++ y) :=
  ⟨x, y, by simp⟩

/-- Claim C4: for every branch name absent locally but present as a
remote-tracking ref, `createWorktree` creates a new local branch named
`branchName` initialised from `remote/branchName` attached to the new
path, and afterwards (immediately next in the effect trace) sets the
upstream of that branch to `remote/branchName`. -/
theorem c4_remote_existing_tracks_remote (cfg : WorktreeConfig) (st : WorldState) (n : String)
    (hL : branchExists st.refs n RefType.loc (jsOrStr (cfg.git.bind GitConfig.remote) "origin") = false)
    (hR : branchExists st.refs n RefType.rem (jsOrStr (cfg.git.bind GitConfig.remote) "origin") = true)
    (hP : strListHas st.dirs (worktreePathOf cfg n) = false) :
    List.IsInfix
        [Effect.worktreeAddNewBranch (worktreePathOf cfg n) n
          (jsOrStr (cfg.git.bind GitConfig.remote) "origin" ++ "/" ++ n),
         Effect.setUpstream (jsOrStr (cfg.git.bind GitConfig.remote) "origin" ++ "/" ++ n) n]
        (createWorktree cfg (some n) true "" UIScript.cancel st).2.1 ∧
    ("refs/heads/" ++ n) ∈ (createWorktree cfg (some n) true "" UIScript.cancel st).2.2.refs := by
  have hR2 : branchExists (st.refs ++ ["refs/heads/" ++ n]) n RefType.rem
      (jsOrStr (cfg.git.bind GitConfig.remote) "origin") = true := by
    have hR' := hR
    simp only [branchExists] at hR'
    simp only [branchExists, strListHas_append, hR', Bool.true_or]
  simp only [createWorktree, afterSelection, classify, hL, hR, hP, hR2, Bool.not_true,
    Bool.false_eq_true, if_false, reduceIte]
  constructor
  · exact isInfix_middle _ _ _ _
  · simp [List.mem_append]

/-- Witness for C4: a branch present only on the remote. -/
theorem c4_remote_existing_tracks_remote_witness :
    List.IsInfix
        [Effect.worktreeAddNewBranch "../assurix-topic" "topic" "origin/topic",
         Effect.setUpstream "origin/topic" "topic"]
        (createWorktree {} (some "topic") true "" UIScript.cancel
          { refs := ["refs/remotes/origin/topic"], dirs := [], files := [],
            currentDir := "/repo" }).2.1 ∧
    ("refs/heads/topic" : String) ∈
      (createWorktree {} (some "topic") true "" UIScript.cancel
        { refs := ["refs/remotes/origin/topic"], dirs := [], files := [],
          currentDir := "/repo" }).2.2.refs :=
  c4_remote_existing_tracks_remote {}
    { refs := ["refs/remotes/origin/topic"], dirs := [], files := [], currentDir := "/repo" }
    "topic" (by decide) (by decide) (by decide)

theorem isPrefixOf_append_self (p t : List Char) : p.isPrefixOf (p ++ t) = true := by
  rw [List.isPrefixOf_iff_prefix]
  exact ⟨t, rfl⟩

theorem replaceFirstList_strip (p t : List Char) : replaceFirstList p [] (p ++ t) = t := by
  cases hpt : p ++ t with
  | nil =>
    rcases List.append_eq_nil.mp hpt with ⟨hp, ht⟩
    subst hp; subst ht
    simp [replaceFirstList]
  | cons c cs =>
    rw [replaceFirstList, ← hpt, isPrefixOf_append_self]
    simp [List.drop_left]

theorem jsReplaceFirst_strip (src rel : String) :
    jsReplaceFirst (src ++ "/" ++ rel) (src ++ "/") "" = rel := by
  show String.mk (replaceFirstList (src ++ "/").data [] ((src ++ "/" ++ rel)).data) = rel
  have h : ((src ++ "/" ++ rel)).data = (src ++ "/").data ++ rel.data := rfl
  rw [h, replaceFirstList_strip]

theorem mem_dedupAux (seen l : List String) (a : String) (h : a ∈ dedupAux seen l) : a ∈ l := by
  induction l generalizing seen with
  | nil => simp [dedupAux] at h
  | cons x xs ih =>
    rw [dedupAux] at h
    split at h
    · exact List.mem_cons_of_mem x (ih _ h)
    · rcases List.mem_cons.mp h with h1 | h2
      · exact h1 ▸ List.mem_cons_self x xs
      · exact List.mem_cons_of_mem x (ih _ h2)

theorem mem_jsDedup (l : List String) (a : String) (h : a ∈ jsDedup l) : a ∈ l :=
  mem_dedupAux [] l a h


theorem mem_findCmd (dir pattern : String) (files : List (String × String)) (e : String)
    (h : e ∈ findCmd dir pattern files) :
    ∃ f ∈ files, f.1 = e ∧ (dir ++ "/").data.isPrefixOf e.data = true := by
  simp only [findCmd, List.mem_map, List.mem_filter, Bool.and_eq_true] at h
  rcases h with ⟨f, ⟨hf, hpre, _⟩, he⟩
  exact ⟨f, hf, he, he ▸ hpre⟩

theorem mem_findEnvFiles (dir : String) (pats exc : List String)
    (files : List (String × String)) (e : String)
    (h : e ∈ findEnvFiles dir pats exc files) :
    ∃ f ∈ files, f.1 = e ∧ (dir ++ "/").data.isPrefixOf e.data = true := by
  rw [findEnvFiles] at h
  have h2 : e ∈ jsDedup (pats.flatMap fun pattern => findCmd dir pattern files) := by
    split at h
    · exact (List.mem_filter.mp h).1
    · exact h
  rcases List.mem_flatMap.mp (mem_jsDedup _ _ h2) with ⟨pat, _, hmem⟩
  exact mem_findCmd dir pat files e hmem

theorem readFileContents_mem (fs : List (String × String)) (e : String)
    (f : String × String) (hf : f ∈ fs) (hf1 : f.1 = e) :
    (e, readFileContents fs e) ∈ fs := by
  rw [readFileContents]
  cases hfind : List.find? (fun g => g.1 == e) fs with
  | none =>
    have := List.find?_eq_none.mp hfind f hf
    simp [hf1] at this
  | some g =>
    have hg1 : (g.1 == e) = true := by
      have := List.find?_some hfind
      simpa using this
    have hgmem : g ∈ fs := List.mem_of_find?_eq_some hfind
    have : (e, ((some g).map fun f => f.2).getD "") = g := by
      simp [← beq_iff_eq.mp hg1]
    rw [this]
    exact hgmem

/-- Claim C5: the env migration round trip.  First conjunct: the concrete
scenario of the specification, for arbitrary file contents — exactly
`a/.env` and `b/.env.local` are copied, to the same relative paths under
the target, contents unchanged, and `a/.env.example` is not copied.
Second conjunct: in general every copied file preserves its relative path
(the target path is the source path relative to the source root, re-rooted
at the target root) and its contents exactly as they stand in the source
tree. -/
theorem c5_env_migration_roundtrip (ca cb ce : String) :
    (migrateEnvFiles "/src" "/wt" [".env*"] [".env.example"]
        [("/src/a/.env", ca), ("/src/b/.env.local", cb), ("/src/a/.env.example", ce)]).2 =
      [("/wt/a/.env", ca), ("/wt/b/.env.local", cb)] ∧
    ∀ (src tgt : String) (pats exc : List String) (fs : List (String × String)) (p c : String),
      (p, c) ∈ (migrateEnvFiles src tgt pats exc fs).2 →
      ∃ rel, p = tgt ++ "/" ++ rel ∧ (src ++ "/" ++ rel, c) ∈ fs := by
  constructor
  · rfl
  · intro src tgt pats exc fs p c hmem
    simp only [migrateEnvFiles, List.mem_map] at hmem
    rcases hmem with ⟨e, he, hpc⟩
    injection hpc with hp hc
    rcases mem_findEnvFiles src pats exc fs e he with ⟨f, hf, hf1, hpre⟩
    rcases List.isPrefixOf_iff_prefix.mp hpre with ⟨t, ht⟩
    have hesplit : e = src ++ "/" ++ String.mk t :=
      congrArg String.mk ht.symm
    refine ⟨String.mk t, ?_, ?_⟩
    · rw [← hp, hesplit, jsReplaceFirst_strip]
    · rw [← hesplit, ← hc]
      exact readFileContents_mem fs e f hf hf1

/-- Witness for C5: the general preservation conjunct applied at the
concrete scenario. -/
theorem c5_env_migration_roundtrip_witness :
    (migrateEnvFiles "/src" "/wt" [".env*"] [".env.example"]
        [("/src/a/.env", "A"), ("/src/b/.env.local", "B"), ("/src/a/.env.example", "C")]).2 =
      [("/wt/a/.env", "A"), ("/wt/b/.env.local", "B")] ∧
    ∃ rel, "/wt/a/.env" = "/wt" ++ "/" ++ rel ∧
      ("/src" ++ "/" ++ rel, "A") ∈
        [("/src/a/.env", "A"), ("/src/b/.env.local", "B"), ("/src/a/.env.example", "C")] :=
  ⟨(c5_env_migration_roundtrip "A" "B" "C").1,
   (c5_env_migration_roundtrip "A" "B" "C").2 "/src" "/wt" [".env*"] [".env.example"]
     [("/src/a/.env", "A"), ("/src/b/.env.local", "B"), ("/src/a/.env.example", "C")]
     "/wt/a/.env" "A" (by decide)⟩

/-- Counterexample to C6 as stated: with exclusion pattern `.env.example`,
the file `XenvYexample` is excluded by the code (its compiled regex, in
which a dot matches any character, matches the basename) although under
the glob semantics of the claim no exclusion pattern matches the
basename. -/
theorem c6_counterexample :
    findEnvFiles "/s" ["*"] [] [("/s/XenvYexample", "c")] = ["/s/XenvYexample"] ∧
    findEnvFiles "/s" ["*"] [".env.example"] [("/s/XenvYexample", "c")] = [] ∧
    specExcludeGlobMatch ".env.example" "XenvYexample" = false ∧
    excludeRegexTest ".env.example" "XenvYexample" = true := by
  decide

/-- Claim C6, amended: exclusion is decided purely against the basename,
but with the semantics of the regular expression the code builds from the
pattern — a star becomes any run of characters, a dot keeps its regex
meaning of any single character, and the test is an unanchored search
within the basename rather than a full glob match.  A file survives
discovery if and only if it is discovered without exclusions and no
exclusion pattern regex-matches its basename. -/
theorem c6_exclusion_is_unanchored_regex_on_basename (dir : String) (pats exc : List String)
    (fs : List (String × String)) (f : String) :
    f ∈ findEnvFiles dir pats exc fs ↔
      f ∈ findEnvFiles dir pats [] fs ∧
        ¬∃ p ∈ exc, excludeRegexTest p (jsBasename f) = true := by
  rw [findEnvFiles, findEnvFiles]
  cases exc with
  | nil => simp
  | cons q qs =>
    simp [List.mem_filter, List.any_eq_true]

theorem heads_beq_remotes_origin_false (n : String) :
    (("refs/heads/" ++ n) == ("refs/remotes/origin/" ++ n)) = false := by
  apply str_beq_false_of_length_ne
  have h1 : ("refs/heads/" : String).length = 11 := rfl
  have h2 : ("refs/remotes/origin/" : String).length = 20 := rfl
  simp only [String.length_append, h1, h2]
  omega

theorem remotes_origin_beq_heads_false (n : String) :
    (("refs/remotes/origin/" ++ n) == ("refs/heads/" ++ n)) = false := by
  apply str_beq_false_of_length_ne
  have h1 : ("refs/heads/" : String).length = 11 := rfl
  have h2 : ("refs/remotes/origin/" : String).length = 20 := rfl
  simp only [String.length_append, h1, h2]
  omega

/-- Claim C7: for every branch name, the worktree directory path is built
from the safe name with every slash replaced by a hyphen (concretely,
`feature/login` yields path `../assurix-feature-login`), while every git
ref operation — the existence checks deciding the trace, the worktree
add, branch creation, upstream and configuration effects — carries the
unmodified original branch name, in all three classification cases. -/
theorem c7_safe_path_original_name_in_refs (n : String) :
    worktreePathOf {} "feature/login" = "../assurix-feature-login" ∧
    worktreePathOf {} n = ".." ++ "/" ++ ("assurix" ++ "-" ++ toSafeBranchName n) ∧
    (createWorktree {} (some n) true "" UIScript.cancel
        { refs := ["refs/heads/" ++ n], dirs := [], files := [], currentDir := "/repo" }).2.1 =
      [Effect.fetch "origin", Effect.worktreeAdd (worktreePathOf {} n) n,
       Effect.configSet ("branch." ++ n ++ ".remote") "origin",
       Effect.configSet ("branch." ++ n ++ ".merge") ("refs/heads/" ++ n),
       Effect.configSet "push.default" "simple"] ∧
    (createWorktree {} (some n) true "" UIScript.cancel
        { refs := ["refs/remotes/origin/" ++ n], dirs := [], files := [],
          currentDir := "/repo" }).2.1 =
      [Effect.fetch "origin",
       Effect.worktreeAddNewBranch (worktreePathOf {} n) n ("origin/" ++ n),
       Effect.setUpstream ("origin/" ++ n) n] ∧
    (createWorktree {} (some n) true "" UIScript.cancel
        { refs := [], dirs := [], files := [], currentDir := "/repo" }).2.1 =
      [Effect.fetch "origin",
       Effect.worktreeAddNewBranch (worktreePathOf {} n) n "origin/main",
       Effect.configSet ("branch." ++ n ++ ".remote") "origin",
       Effect.configSet ("branch." ++ n ++ ".merge") ("refs/heads/" ++ n),
       Effect.configSet "push.default" "simple"] := by
  have hfold1 : ∀ m : String, "refs/remotes/" ++ "origin" ++ "/" ++ m = "refs/remotes/origin/" ++ m :=
    fun _ => rfl
  have hfold2 : ∀ m : String, ("origin" : String) ++ "/" ++ m = "origin/" ++ m :=
    fun _ => rfl
  refine ⟨rfl, rfl, ?_, ?_, ?_⟩ <;>
    simp [createWorktree, afterSelection, classify, branchExists, strListHas, jsOrStr,
      Option.bind, hfold1, hfold2, heads_beq_remotes_origin_false, remotes_origin_beq_heads_false,
      migrateEnvFiles, findEnvFiles, findCmd, jsDedup, dedupAux, strListHas_append]

/-- Claim C10: the tracking post-step dispatches on a fresh remote-ref
existence check after worktree creation, not on the original
classification.  First conjunct: a branch classified `localExisting`
that also has a remote-tracking ref gets its upstream set to
`origin/branchName`.  Second conjunct: a `localExisting` branch with no
remote-tracking ref receives the new-branch push configuration
(`branch.NAME.remote`, `branch.NAME.merge`, `push.default simple`), plus
a push exactly when auto-push is enabled. -/
theorem c10_tracking_dispatch_on_fresh_remote_check (n : String) (pb : Option Bool) :
    (createWorktree { git := some { pushNewBranches := pb } } (some n) true "" UIScript.cancel
        { refs := ["refs/heads/" ++ n, "refs/remotes/origin/" ++ n], dirs := [], files := [],
          currentDir := "/repo" }).2.1 =
      [Effect.fetch "origin",
       Effect.worktreeAdd (worktreePathOf { git := some { pushNewBranches := pb } } n) n,
       Effect.setUpstream ("origin/" ++ n) n] ∧
    (createWorktree { git := some { pushNewBranches := pb } } (some n) true "" UIScript.cancel
        { refs := ["refs/heads/" ++ n], dirs := [], files := [], currentDir := "/repo" }).2.1 =
      [Effect.fetch "origin",
       Effect.worktreeAdd (worktreePathOf { git := some { pushNewBranches := pb } } n) n,
       Effect.configSet ("branch." ++ n ++ ".remote") "origin",
       Effect.configSet ("branch." ++ n ++ ".merge") ("refs/heads/" ++ n),
       Effect.configSet "push.default" "simple"] ++
        (if pb.getD false then [Effect.push "origin" n] else []) := by
  have hfold1 : ∀ m : String, "refs/remotes/" ++ "origin" ++ "/" ++ m = "refs/remotes/origin/" ++ m :=
    fun _ => rfl
  have hfold2 : ∀ m : String, ("origin" : String) ++ "/" ++ m = "origin/" ++ m :=
    fun _ => rfl
  cases hpb : pb.getD false <;>
    refine ⟨?_, ?_⟩ <;>
      simp [createWorktree, afterSelection, classify, branchExists, strListHas, jsOrStr,
        Option.bind, hpb, hfold1, hfold2, heads_beq_remotes_origin_false,
        remotes_origin_beq_heads_false, migrateEnvFiles, findEnvFiles, findCmd, jsDedup,
        dedupAux, strListHas_append]

theorem lexLe_total (a b : List Char) : lexLe a b = true ∨ lexLe b a = true := by
  induction a generalizing b with
  | nil => left; rfl
  | cons x xs ih =>
    cases b with
    | nil => right; rfl
    | cons y ys =>
      simp only [lexLe, Bool.or_eq_true, decide_eq_true_eq, Bool.and_eq_true]
      rcases lt_trichotomy x y with h | h | h
      · left; left; exact h
      · rcases ih ys with h2 | h2
        · left; right; exact ⟨by simp [h], h2⟩
        · right; right; exact ⟨by simp [h], h2⟩
      · right; left; exact h

theorem lexLe_trans (a b c : List Char) (h1 : lexLe a b = true) (h2 : lexLe b c = true) :
    lexLe a c = true := by
  induction a generalizing b c with
  | nil => rfl
  | cons x xs ih =>
    cases b with
    | nil => simp [lexLe] at h1
    | cons y ys =>
      cases c with
      | nil => simp [lexLe] at h2
      | cons z zs =>
        simp only [lexLe, Bool.or_eq_true, decide_eq_true_eq, Bool.and_eq_true] at h1 h2 ⊢
        rcases h1 with h1 | ⟨rfl, h1r⟩
        · rcases h2 with h2 | ⟨rfl, h2r⟩
          · left; exact lt_trans h1 h2
          · left; exact h1
        · rcases h2 with h2 | ⟨rfl, h2r⟩
          · left; exact h2
          · right; exact ⟨rfl, ih ys zs h1r h2r⟩

theorem strLe_total (a b : String) : strLe a b = true ∨ strLe b a = true :=
  lexLe_total a.data b.data

theorem strLe_trans (a b c : String) (h1 : strLe a b = true) (h2 : strLe b c = true) :
    strLe a c = true :=
  lexLe_trans a.data b.data c.data h1 h2

theorem mem_insertSorted (s : String) (l : List String) (a : String) :
    a ∈ insertSorted s l ↔ a = s ∨ a ∈ l := by
  induction l with
  | nil => simp [insertSorted]
  | cons t ts ih =>
    rw [insertSorted]
    split
    · simp [List.mem_cons]
    · simp only [List.mem_cons, ih]
      tauto

theorem mem_sortStrings (l : List String) (a : String) :
    a ∈ sortStrings l ↔ a ∈ l := by
  induction l with
  | nil => simp [sortStrings]
  | cons s ss ih =>
    rw [sortStrings]
    simp [mem_insertSorted, ih]

theorem pairwise_insertSorted (s : String) (l : List String)
    (h : List.Pairwise (fun a b => strLe a b = true) l) :
    List.Pairwise (fun a b => strLe a b = true) (insertSorted s l) := by
  induction l with
  | nil => simp [insertSorted]
  | cons t ts ih =>
    rcases List.pairwise_cons.mp h with ⟨ht, hts⟩
    by_cases hle : strLe s t = true
    · rw [insertSorted, if_pos hle]
      refine List.pairwise_cons.mpr ⟨?_, h⟩
      intro x hx
      rcases List.mem_cons.mp hx with rfl | hx2
      · exact hle
      · exact strLe_trans s t x hle (ht x hx2)
    · rw [insertSorted, if_neg hle]
      refine List.pairwise_cons.mpr ⟨?_, ih hts⟩
      intro x hx
      rcases (mem_insertSorted s ts x).mp hx with rfl | hx2
      · rcases strLe_total x t with h2 | h2
        · exact absurd h2 hle
        · exact h2
      · exact ht x hx2

theorem pairwise_sortStrings (l : List String) :
    List.Pairwise (fun a b => strLe a b = true) (sortStrings l) := by
  induction l with
  | nil => simp [sortStrings]
  | cons s ss ih =>
    rw [sortStrings]
    exact pairwise_insertSorted s (sortStrings ss) ih

/-- Counterexample to C8 as stated: a remote branch named `fix-HEADER`
is dropped from the inventory, because the code filters out every line of
`git branch -r` containing the substring `HEAD`, not only the symbolic
HEAD pointer line — so not all other branch names are retained. -/
theorem c8_counterexample :
    getRemoteBranches "origin"
        "  origin/HEAD -> origin/main\n  origin/fix-HEADER\n  origin/main\n" = ["main"] ∧
    ("fix-HEADER" : String) ∉
      getRemoteBranches "origin"
        "  origin/HEAD -> origin/main\n  origin/fix-HEADER\n  origin/main\n" := by
  decide

/-- Claim C8, amended: `getRemoteBranches` returns exactly the lines of
the `git branch -r` output that are nonempty after trimming and do not
contain the substring `HEAD` anywhere (this excludes the symbolic HEAD
pointer line, but also any branch whose name contains `HEAD`), each
trimmed and with the first occurrence of `remote/` removed, and the
result is lexicographically sorted. -/
theorem c8_branches_filtered_stripped_sorted (remote stdout : String) :
    (∀ b, b ∈ getRemoteBranches remote stdout ↔
      ∃ line ∈ jsSplit stdout '\n', jsTrim line ≠ "" ∧ jsIncludes line "HEAD" = false ∧
        b = jsReplaceFirst (jsTrim line) (remote ++ "/") "") ∧
    List.Pairwise (fun a b => strLe a b = true) (getRemoteBranches remote stdout) := by
  constructor
  · intro b
    rw [getRemoteBranches, mem_sortStrings]
    simp only [List.mem_map, List.mem_filter, Bool.and_eq_true, Bool.not_eq_true',
      decide_eq_true_eq]
    constructor
    · rintro ⟨line, ⟨hmem, hne, hhead⟩, hb⟩
      exact ⟨line, hmem, hne, hhead, hb.symm⟩
    · rintro ⟨line, hmem, hne, hhead, hb⟩
      exact ⟨line, ⟨hmem, hne, hhead⟩, hb.symm⟩
  · rw [getRemoteBranches]
    exact pairwise_sortStrings _

/-- Claim C9: with inventory `["main", "feature/x"]`, choosing the
create-new entry and typing `feature/x` is rejected (already exists) and
the prompt re-asks, after which typing `feature/y` is accepted and
returned as the branch to create; and a name that is empty or whitespace
only is always rejected, for any inventory. -/
theorem c9_interactive_create_new_validation :
    validateNewBranchName ["main", "feature/x"] "feature/x" = false ∧
    selectBranchInteractive ["main", "feature/x"]
        (UIScript.choose 0 ["feature/x", "feature/y"]) = some "feature/y" ∧
    (∀ (branches : List String) (s : String), jsTrim s = "" →
      validateNewBranchName branches s = false) := by
  refine ⟨by decide, by decide, ?_⟩
  intro branches s h
  simp [validateNewBranchName, h]

/-- Witness for C9: the whitespace-rejection conjunct applied at a
concrete whitespace-only input. -/
theorem c9_interactive_create_new_validation_witness :
    jsTrim "   " = "" ∧ validateNewBranchName ["main"] "   " = false :=
  ⟨by decide, c9_interactive_create_new_validation.2.2 ["main"] "   " (by decide)⟩
